import Mathlib

/-!
Shallow embedding of `src/tools/repo_func_analyzer.py` (a static analyzer
that extracts Python functions, enriches them with metrics, builds a call
graph and ranks the functions by a composite score), together with proofs
about the embedded definitions.

Modelling conventions:
* Python floats are modelled by exact rationals (`ℚ`); the constants
  `0.3`, `0.2`, `10`, `50` of the score formula become exact `ℚ` literals.
* Python's `round(x, 4)` is modelled by rounding to the nearest multiple
  of `1/10000` (Mathlib's `round`, ties towards the larger value).
* The external parser (`ast.parse`) and the external metric library
  (`cc_visit` / `mi_visit` of radon) are not part of the repository; their
  outcomes enter the embedding as explicit `Option`-valued inputs: `none`
  models the exception branch of the corresponding `try`/`except`.
* Python's `str.splitlines(keepends=True)` is modelled for the newline
  character `'\n'` (the only line separator occurring in the inputs
  considered here).
* Python's `sorted` is a stable sort; it is modelled by `List.mergeSort`,
  which is stable (`List.mergeSort_enum` relates it to the sort of the
  index-paired list under the reverse-lexicographic order `List.enumLE`).
-/

namespace RepoFuncAnalyzer

/-! ### String helpers (Python `startswith`, `in`, `lower`, `splitlines`) -/

/-- Test whether `ys` is an initial segment of `xs`. -/
def listStartsWith : List Char → List Char → Bool
  | _, [] => true
  | [], _ :: _ => false
  | a :: as, b :: bs => a == b && listStartsWith as bs

/-- Python `s.startswith(p)`. -/
def strStartsWith (s p : String) : Bool :=
  listStartsWith s.data p.data

/-- Python `s.endswith(p)`. -/
def strEndsWith (s p : String) : Bool :=
  listStartsWith s.data.reverse p.data.reverse

/-- Test whether `ys` occurs as a contiguous segment of `xs`. -/
def listContainsSub : List Char → List Char → Bool
  | [], pat => pat.isEmpty
  | h :: t, pat => listStartsWith (h :: t) pat || listContainsSub t pat

/-- Python `pat in hay` on strings (substring containment). -/
def strContains (hay pat : String) : Bool :=
  listContainsSub hay.data pat.data

/-- Python `s.lower()`. -/
def strLower (s : String) : String :=
  String.mk (s.data.map Char.toLower)

/-- Python `s.count('\n')`. -/
def countNewlines (s : String) : ℕ :=
  s.data.countP (· == '\n')

/-- Auxiliary accumulator loop for `splitlinesKeepends`; `acc` holds the
characters of the current (unfinished) line in reverse. -/
def splitlinesAux : List Char → List Char → List String
  | acc, [] => if acc.isEmpty then [] else [String.mk acc.reverse]
  | acc, c :: rest =>
    if c == '\n' then String.mk (acc.reverse ++ ['\n']) :: splitlinesAux [] rest
    else splitlinesAux (c :: acc) rest

/-- Python `source.splitlines(keepends=True)`, specialised to `'\n'` as the
line separator: each emitted line keeps its trailing newline, and a final
segment without a newline is kept as well; the empty string gives `[]`. -/
def splitlinesKeepends (s : String) : List String :=
  splitlinesAux [] s.data

/-! ### Data model -/

/-- The function dictionary built in `extract_functions_from_file`
(lines 48–55): `id`, `label`, `code`, `file_path`, `lineno`
(the constant `"type": "Function"` field is omitted). -/
structure FunctionRecord where
  id : String
  label : String
  code : String
  file_path : String
  lineno : ℕ
  deriving DecidableEq, Inhabited

/-- The `metrics` dictionary attached by `enrich_function` (lines 92–98). -/
structure Metrics where
  loc : ℕ
  cyclomatic_complexity : ℕ
  mi : ℚ
  calls : List String
  domain_score : ℚ
  deriving DecidableEq, Inhabited

/-- A function record after enrichment. -/
structure EnrichedFunction where
  func : FunctionRecord
  metrics : Metrics
  deriving DecidableEq, Inhabited

/-! ### Domain relevance (lines 11–16 and 62–66) -/

/-- The vocabulary `DOMAIN_KEYWORDS` (lines 11–16). Python iterates over a `set`; the
embedding uses a duplicate-free list of the same 27 strings. -/
def DOMAIN_KEYWORDS : List String :=
  ["db", "database", "user", "auth", "token", "order", "payment",
   "item", "items", "create", "read", "update", "delete", "openapi",
   "route", "request", "response", "router", "http", "status", "oauth",
   "login", "logout", "session", "validate", "schema", "serialize"]

/-- The lowercased text `(func["label"] + " " + func["code"]).lower()`
scanned by `calc_domain_relevance` (line 63). -/
def domainText (func : FunctionRecord) : String :=
  strLower (func.label ++ " " ++ func.code)

/-- Embeds `calc_domain_relevance` (lines 62–66): the number of vocabulary
keywords occurring in the lowercased name-plus-code text, divided by the
vocabulary size. -/
def calc_domain_relevance (func : FunctionRecord) : ℚ :=
  (DOMAIN_KEYWORDS.countP (fun kw => strContains (domainText func) kw) : ℚ) /
    (DOMAIN_KEYWORDS.length : ℚ)

/-! ### Enrichment (lines 68–100) -/

/-- Outcomes of the two fallible external sub-analyses performed by
`enrich_function` on the isolated source slice:
* `radon`: `some (bs, mi)` when `cc_visit`/`mi_visit` succeed, where `bs`
  are the per-block complexities and `mi` the maintainability index;
  `none` models the `except` branch of lines 74–76.
* `parsedCalls`: `some calls` when `ast.parse` on the slice succeeds,
  where `calls` are the `ast.Name` call targets collected in walk order
  (duplicates retained); `none` models the failure branch of line 81. -/
structure ParsedSubanalysis where
  radon : Option (List ℕ × ℚ)
  parsedCalls : Option (List String)
  deriving DecidableEq, Inhabited

/-- Embeds `enrich_function` (lines 68–100), with the two external parse outcomes
passed in explicitly. -/
def enrich_function (func : FunctionRecord) (ext : ParsedSubanalysis) :
    EnrichedFunction :=
  let complexity := match ext.radon with
    | some (blocks, _) => blocks.sum
    | none => 0
  let mi_score := match ext.radon with
    | some (_, mi) => mi
    | none => 0
  let calls := match ext.parsedCalls with
    | some cs => cs
    | none => []
  let loc := countNewlines func.code + 1
  let domain_score := calc_domain_relevance func
  { func := func,
    metrics :=
      { loc := loc, cyclomatic_complexity := complexity, mi := mi_score,
        calls := calls, domain_score := domain_score } }

/-! ### Triviality heuristics (lines 105–119) -/

/-- Rule 1 (line 111): accessor-style name and at most 5 lines. -/
def trivialRule1 (f : EnrichedFunction) : Bool :=
  (strStartsWith f.func.label "get_" || strStartsWith f.func.label "set_" ||
   strStartsWith f.func.label "to_" || strStartsWith f.func.label "from_" ||
   strStartsWith f.func.label "is_" || strStartsWith f.func.label "has_") &&
  f.metrics.loc ≤ 5

/-- Rule 2 (line 113): at most 3 lines and complexity at most 1. -/
def trivialRule2 (f : EnrichedFunction) : Bool :=
  f.metrics.loc ≤ 3 && f.metrics.cyclomatic_complexity ≤ 1

/-- Rule 3 (line 115): exactly one call target and complexity at most 1. -/
def trivialRule3 (f : EnrichedFunction) : Bool :=
  f.metrics.calls.length == 1 && f.metrics.cyclomatic_complexity ≤ 1

/-- Rule 4 (line 117): the source text contains `"return"`, at most 2
lines, and no call targets. -/
def trivialRule4 (f : EnrichedFunction) : Bool :=
  strContains f.func.code "return" && f.metrics.loc ≤ 2 &&
  f.metrics.calls.isEmpty

/-- Embeds `is_trivial_function` (lines 105–119): the four rules tried in order,
returning at the first match, `false` otherwise. -/
def is_trivial_function (f : EnrichedFunction) : Bool :=
  if trivialRule1 f then true
  else if trivialRule2 f then true
  else if trivialRule3 f then true
  else if trivialRule4 f then true
  else false

/-! ### Extraction (lines 21–57) -/

/-- A node of the walked syntax tree, as seen by the loop of lines 45–46:
either a `FunctionDef` node carrying a name and a 1-based start/end line
span (Python guarantees `end_lineno` on parsed nodes), or any other node. -/
inductive AstNode where
  | funcDef (name : String) (lineno endLineno : ℕ)
  | other
  deriving DecidableEq, Inhabited

/-- Whether a walked node is a `FunctionDef` node. -/
def AstNode.isFuncDef : AstNode → Bool
  | .funcDef _ _ _ => true
  | .other => false

/-- The slice `''.join(lines[node.lineno - 1 : node.end_lineno])` of
line 47, where `lines = source.splitlines(keepends=True)`. -/
def sliceLines (source : String) (lineno endLineno : ℕ) : String :=
  String.join
    (((splitlinesKeepends source).drop (lineno - 1)).take (endLineno - (lineno - 1)))

/-- The record built for one `FunctionDef` node (lines 48–55). -/
def mkFunctionRecord (file_path source : String)
    (name : String) (lineno endLineno : ℕ) : FunctionRecord :=
  { id := "code:" ++ file_path ++ ":" ++ name ++ ":" ++ toString lineno,
    label := name,
    code := sliceLines source lineno endLineno,
    file_path := file_path,
    lineno := lineno }

/-- The body of the walk loop (lines 45–55): a `FunctionDef` node yields
one record, any other node yields nothing. -/
def recordOfNode (file_path source : String) : AstNode → Option FunctionRecord
  | .funcDef name lineno endLineno =>
    some (mkFunctionRecord file_path source name lineno endLineno)
  | .other => none

/-- Embeds `extract_functions_from_file` (lines 30–57). `readResult` is the
outcome of `open`/`read` (`none` models the `except` of lines 35–36) and
`parsed` the outcome of `ast.parse` on the read source (`none` models the
`SyntaxError` branch of lines 40–41; `some tree` lists the walked nodes). -/
def extract_functions_from_file (file_path : String)
    (readResult : Option String) (parsed : Option (List AstNode)) :
    List FunctionRecord :=
  match readResult with
  | none => []
  | some source =>
    match parsed with
    | none => []
    | some tree => tree.filterMap (recordOfNode file_path source)

/-- One file of the walked directory tree: its path together with the
outcomes of reading and parsing it. -/
structure FileInput where
  path : String
  readResult : Option String
  parsed : Option (List AstNode)

/-- Embeds `extract_functions_from_repo` (lines 21–28): extend the accumulator
with each `.py` file's records in walk order. -/
def extract_functions_from_repo (files : List FileInput) :
    List FunctionRecord :=
  files.foldl
    (fun acc f =>
      if strEndsWith f.path ".py" then
        acc ++ extract_functions_from_file f.path f.readResult f.parsed
      else acc)
    []

/-! ### Call graph (lines 124–130) -/

/-- A directed graph in the style of `networkx.DiGraph`: node and edge
lists, both kept duplicate-free by the insertion operations. -/
structure PyDiGraph where
  nodes : List String
  edges : List (String × String)
  deriving DecidableEq, Inhabited

/-- Embeds `G.add_node(n)`: a no-op when the node is already present. -/
def add_node (G : PyDiGraph) (n : String) : PyDiGraph :=
  if n ∈ G.nodes then G else { G with nodes := G.nodes ++ [n] }

/-- Embeds `G.add_edge(u, v)`: inserts both endpoints as nodes when missing, then
the edge when missing (a repeated edge is a no-op, as in `networkx`). -/
def add_edge (G : PyDiGraph) (u v : String) : PyDiGraph :=
  if (u, v) ∈ (add_node (add_node G u) v).edges then add_node (add_node G u) v
  else { nodes := (add_node (add_node G u) v).nodes,
         edges := (add_node (add_node G u) v).edges ++ [(u, v)] }

/-- The body of the outer loop of `build_call_graph` (lines 126–129): add
the function's name as a node, then one edge per recorded call target. -/
def add_function_edges (G : PyDiGraph) (f : EnrichedFunction) : PyDiGraph :=
  f.metrics.calls.foldl (fun G callee => add_edge G f.func.label callee)
    (add_node G f.func.label)

/-- Embeds `build_call_graph` (lines 124–130). -/
def build_call_graph (functions : List EnrichedFunction) : PyDiGraph :=
  functions.foldl add_function_edges { nodes := [], edges := [] }

/-! ### Ranking (lines 132–162) -/

/-- Python `round(q, 4)`: the nearest multiple of `1/10000` (ties towards
the larger value in this model; no input below is a tie). -/
def round4 (q : ℚ) : ℚ :=
  (round (q * 10000) : ℚ) / 10000

/-- The composite score of lines 143–148. `centrality` stands for
`nx.pagerank(graph).get(name, 0)`: the pagerank computation is external
(`networkx`), so the ranker is parametrised by the resulting map, already
including the default `0` for missing names (and the empty-graph case of
line 133, where every name maps to `0`). -/
def compositeScore (centrality : String → ℚ) (f : EnrichedFunction) : ℚ :=
  3/10 * min ((f.metrics.cyclomatic_complexity : ℚ) / 10) 1 +
  2/10 * min ((f.metrics.loc : ℚ) / 50) 1 +
  3/10 * centrality f.func.label +
  2/10 * f.metrics.domain_score

/-- One entry of the `scored` list before rank assignment
(lines 150–157, with `rank` still unassigned). -/
structure ScoredEntry where
  functionId : String
  name : String
  file : String
  score : ℚ
  is_trivial : Bool
  deriving DecidableEq, Inhabited

/-- The dictionary appended to `scored` for one function (lines 150–157):
the stored `score` is already rounded to 4 decimal places (line 154). -/
def scoreEntry (centrality : String → ℚ) (f : EnrichedFunction) :
    ScoredEntry :=
  { functionId := f.func.id,
    name := f.func.label,
    file := f.func.file_path,
    score := round4 (compositeScore centrality f),
    is_trivial := is_trivial_function f }

/-- The comparison used by `sorted(scored, key=lambda x: x["score"],
reverse=True)` (line 159): `a` may precede `b` when `b`'s score does not
exceed `a`'s. -/
def scoreGe (a b : ScoredEntry) : Bool :=
  decide (b.score ≤ a.score)

/-- A scored entry with its rank (lines 160–161). -/
structure RankedEntry extends ScoredEntry where
  rank : ℕ
  deriving DecidableEq, Inhabited

/-- Embeds `rank_functions` (lines 132–162): score every function, sort stably by
descending (rounded) score, assign dense 1-based ranks. Python's `sorted`
is stable; `List.mergeSort` is the stable sort of the Lean library. -/
def rank_functions (functions : List EnrichedFunction)
    (centrality : String → ℚ) : List RankedEntry :=
  let scored := functions.map (scoreEntry centrality)
  let sortedScored := scored.mergeSort scoreGe
  sortedScored.enum.map (fun p => { toScoredEntry := p.2, rank := p.1 + 1 })

/-- The sorted list of line 159 with each entry paired with its index in
the input `scored` list: by `List.mergeSort_enum` its second components
are exactly the sorted list used by `rank_functions`, and the indices
witness where each emitted entry came from. -/
def rank_functions_indexed (functions : List EnrichedFunction)
    (centrality : String → ℚ) : List (ℕ × ScoredEntry) :=
  ((functions.map (scoreEntry centrality)).enum).mergeSort
    (List.enumLE scoreGe)

/-- What one walked file adds to the accumulated function list in
`extract_functions_from_repo`. -/
def fileContribution (f : FileInput) : List FunctionRecord :=
  if strEndsWith f.path ".py" then
    extract_functions_from_file f.path f.readResult f.parsed
  else []

/-! ### Shared lemmas -/

theorem extract_repo_foldl (files : List FileInput) :
    ∀ acc : List FunctionRecord,
      files.foldl
        (fun acc f =>
          if strEndsWith f.path ".py" then
            acc ++ extract_functions_from_file f.path f.readResult f.parsed
          else acc)
        acc =
      acc ++ (files.map fileContribution).flatten := by
  induction files with
  | nil => intro acc; simp
  | cons f fs ih =>
    intro acc
    simp only [List.foldl_cons, List.map_cons, List.flatten_cons]
    rw [ih]
    cases hf : strEndsWith f.path ".py" <;>
      simp [fileContribution, hf, List.append_assoc]

theorem calc_domain_relevance_nonneg (func : FunctionRecord) :
    0 ≤ calc_domain_relevance func := by
  unfold calc_domain_relevance
  positivity

theorem calc_domain_relevance_le_one (func : FunctionRecord) :
    calc_domain_relevance func ≤ 1 := by
  unfold calc_domain_relevance
  rw [div_le_one (by norm_num [DOMAIN_KEYWORDS])]
  exact_mod_cast List.countP_le_length
    (p := fun kw => strContains (domainText func) kw)

/-- The chain of `if`s in `is_trivial_function` is the disjunction of the
four rule tests. -/
theorem is_trivial_function_eq_or (f : EnrichedFunction) :
    is_trivial_function f =
      (trivialRule1 f || trivialRule2 f || trivialRule3 f || trivialRule4 f) := by
  unfold is_trivial_function
  cases h1 : trivialRule1 f <;> cases h2 : trivialRule2 f <;>
    cases h3 : trivialRule3 f <;> cases h4 : trivialRule4 f <;> simp

/-! ### C1 — composite score formula and bounds -/

/-- C1: for every enriched function the composite score is
`0.3·min(complexity/10, 1) + 0.2·min(lineCount/50, 1) + 0.3·centrality[name]
+ 0.2·domainScore`, and when `0 ≤ centrality[name] ≤ 1` the score lies in
`[0, 1]`. -/
theorem composite_score_formula_and_bounds (centrality : String → ℚ)
    (func : FunctionRecord) (ext : ParsedSubanalysis)
    (h0 : 0 ≤ centrality func.label) (h1 : centrality func.label ≤ 1) :
    compositeScore centrality (enrich_function func ext) =
      3/10 * min (((enrich_function func ext).metrics.cyclomatic_complexity : ℚ) / 10) 1 +
      2/10 * min (((enrich_function func ext).metrics.loc : ℚ) / 50) 1 +
      3/10 * centrality func.label +
      2/10 * (enrich_function func ext).metrics.domain_score ∧
    0 ≤ compositeScore centrality (enrich_function func ext) ∧
    compositeScore centrality (enrich_function func ext) ≤ 1 := by
  have hform : compositeScore centrality (enrich_function func ext) =
      3/10 * min (((enrich_function func ext).metrics.cyclomatic_complexity : ℚ) / 10) 1 +
      2/10 * min (((enrich_function func ext).metrics.loc : ℚ) / 50) 1 +
      3/10 * centrality func.label +
      2/10 * (enrich_function func ext).metrics.domain_score := rfl
  refine ⟨hform, ?_, ?_⟩ <;>
  · rw [hform]
    have hds : (enrich_function func ext).metrics.domain_score =
        calc_domain_relevance func := rfl
    have hd0 := calc_domain_relevance_nonneg func
    have hd1 := calc_domain_relevance_le_one func
    rw [hds]
    have hc0 : (0 : ℚ) ≤
        ((enrich_function func ext).metrics.cyclomatic_complexity : ℚ) / 10 := by
      positivity
    have hl0 : (0 : ℚ) ≤ ((enrich_function func ext).metrics.loc : ℚ) / 50 := by
      positivity
    have hmc0 : (0 : ℚ) ≤
        min (((enrich_function func ext).metrics.cyclomatic_complexity : ℚ) / 10) 1 :=
      le_min hc0 (by norm_num)
    have hmc1 :
        min (((enrich_function func ext).metrics.cyclomatic_complexity : ℚ) / 10) 1 ≤ 1 :=
      min_le_right _ _
    have hml0 : (0 : ℚ) ≤ min (((enrich_function func ext).metrics.loc : ℚ) / 50) 1 :=
      le_min hl0 (by norm_num)
    have hml1 : min (((enrich_function func ext).metrics.loc : ℚ) / 50) 1 ≤ 1 :=
      min_le_right _ _
    linarith

/-- Witness for C1 at a concrete record with failing sub-analyses and zero
centrality. -/
theorem composite_score_formula_and_bounds_witness :
    0 ≤ (fun _ : String => (0 : ℚ)) (FunctionRecord.label ⟨"i", "f", "pass", "p.py", 1⟩) ∧
    (fun _ : String => (0 : ℚ)) (FunctionRecord.label ⟨"i", "f", "pass", "p.py", 1⟩) ≤ 1 ∧
    (0 ≤ compositeScore (fun _ => 0)
        (enrich_function ⟨"i", "f", "pass", "p.py", 1⟩ ⟨none, none⟩) ∧
      compositeScore (fun _ => 0)
        (enrich_function ⟨"i", "f", "pass", "p.py", 1⟩ ⟨none, none⟩) ≤ 1) :=
  ⟨le_refl 0, by norm_num,
    (composite_score_formula_and_bounds (fun _ => 0) ⟨"i", "f", "pass", "p.py", 1⟩
      ⟨none, none⟩ (le_refl 0) (by norm_num)).2⟩

/-! ### C2 — triviality flag is the plain disjunction of the four rules -/

/-- C2: the triviality flag holds exactly when one of the four rules holds,
and the fixed evaluation order never changes the outcome: the chained
evaluation equals the plain disjunction of the four rule tests. -/
theorem trivial_flag_iff_disjunction (f : EnrichedFunction) :
    is_trivial_function f =
      (trivialRule1 f || trivialRule2 f || trivialRule3 f || trivialRule4 f) ∧
    (is_trivial_function f = true ↔
      (((strStartsWith f.func.label "get_" = true ∨
         strStartsWith f.func.label "set_" = true ∨
         strStartsWith f.func.label "to_" = true ∨
         strStartsWith f.func.label "from_" = true ∨
         strStartsWith f.func.label "is_" = true ∨
         strStartsWith f.func.label "has_" = true) ∧ f.metrics.loc ≤ 5) ∨
       (f.metrics.loc ≤ 3 ∧ f.metrics.cyclomatic_complexity ≤ 1) ∨
       (f.metrics.calls.length = 1 ∧ f.metrics.cyclomatic_complexity ≤ 1) ∨
       (strContains f.func.code "return" = true ∧ f.metrics.loc ≤ 2 ∧
         f.metrics.calls = []))) := by
  refine ⟨is_trivial_function_eq_or f, ?_⟩
  rw [is_trivial_function_eq_or f]
  simp only [trivialRule1, trivialRule2, trivialRule3, trivialRule4,
    Bool.or_eq_true, Bool.and_eq_true, decide_eq_true_eq, beq_iff_eq,
    List.isEmpty_iff]
  tauto

/-! ### C9 — enrichment degrades on re-parse failure -/

/-- C9: when the radon metrics and the call-target re-parse both fail, the
complexity and maintainability metrics degrade to `0` and the call-target
list to `[]`, while the line count and the domain score are still computed
and attached to the record (and enrichment is a total function). -/
theorem enrichment_degrades (func : FunctionRecord) (ext : ParsedSubanalysis)
    (hradon : ext.radon = none) (hcalls : ext.parsedCalls = none) :
    (enrich_function func ext).metrics.cyclomatic_complexity = 0 ∧
    (enrich_function func ext).metrics.mi = 0 ∧
    (enrich_function func ext).metrics.calls = [] ∧
    (enrich_function func ext).metrics.loc = countNewlines func.code + 1 ∧
    (enrich_function func ext).metrics.domain_score = calc_domain_relevance func := by
  obtain ⟨r, p⟩ := ext
  cases hradon
  cases hcalls
  exact ⟨rfl, rfl, rfl, rfl, rfl⟩

/-- Witness for C9 at a concrete record with both sub-analyses failing. -/
theorem enrichment_degrades_witness :
    (⟨none, none⟩ : ParsedSubanalysis).radon = none ∧
    (⟨none, none⟩ : ParsedSubanalysis).parsedCalls = none ∧
    ((enrich_function ⟨"i", "f", "x = 1", "p.py", 1⟩ ⟨none, none⟩).metrics.cyclomatic_complexity = 0 ∧
     (enrich_function ⟨"i", "f", "x = 1", "p.py", 1⟩ ⟨none, none⟩).metrics.mi = 0 ∧
     (enrich_function ⟨"i", "f", "x = 1", "p.py", 1⟩ ⟨none, none⟩).metrics.calls = [] ∧
     (enrich_function ⟨"i", "f", "x = 1", "p.py", 1⟩ ⟨none, none⟩).metrics.loc =
       countNewlines "x = 1" + 1 ∧
     (enrich_function ⟨"i", "f", "x = 1", "p.py", 1⟩ ⟨none, none⟩).metrics.domain_score =
       calc_domain_relevance ⟨"i", "f", "x = 1", "p.py", 1⟩) :=
  ⟨rfl, rfl, enrichment_degrades ⟨"i", "f", "x = 1", "p.py", 1⟩ ⟨none, none⟩ rfl rfl⟩

/-! ### C5 — domain relevance is a capped coverage score -/

/-- C5: the domain score is the number of vocabulary keywords occurring as
substrings of the lowercased `name + " " + sourceText`, divided by the
vocabulary size; it lies in `[0, 1]`, and it only depends on which keywords
match (so repeated occurrences of one keyword cannot change it). -/
theorem domain_score_spec (func : FunctionRecord) :
    calc_domain_relevance func =
      (DOMAIN_KEYWORDS.countP (fun kw => strContains (domainText func) kw) : ℚ) /
        (DOMAIN_KEYWORDS.length : ℚ) ∧
    0 ≤ calc_domain_relevance func ∧
    calc_domain_relevance func ≤ 1 ∧
    ∀ g : FunctionRecord,
      (∀ kw ∈ DOMAIN_KEYWORDS,
        strContains (domainText func) kw = strContains (domainText g) kw) →
      calc_domain_relevance func = calc_domain_relevance g := by
  refine ⟨rfl, calc_domain_relevance_nonneg func, calc_domain_relevance_le_one func, ?_⟩
  intro g h
  have hcount : DOMAIN_KEYWORDS.countP (fun kw => strContains (domainText func) kw) =
      DOMAIN_KEYWORDS.countP (fun kw => strContains (domainText g) kw) :=
    List.countP_congr (fun kw hkw => by rw [h kw hkw])
  unfold calc_domain_relevance
  rw [hcount]

/-! ### C7 — one record per FunctionDef node -/

theorem length_filterMap_recordOfNode (file_path source : String)
    (tree : List AstNode) :
    (tree.filterMap (recordOfNode file_path source)).length =
      tree.countP AstNode.isFuncDef := by
  induction tree with
  | nil => rfl
  | cons n t ih =>
    cases n with
    | funcDef name lineno endLineno =>
      simp [List.filterMap_cons, recordOfNode, List.countP_cons,
        AstNode.isFuncDef, ih]
    | other =>
      simp [List.filterMap_cons, recordOfNode, List.countP_cons,
        AstNode.isFuncDef, ih]

/-- C7: for a successfully read and parsed file, extraction emits exactly
one record per `FunctionDef` node of the walked tree (nested functions
included, each as an independent record with no parent/child linkage):
the record count equals the `FunctionDef` node count, every node yields
its record, and every record comes from a node whose declared name is the
record's name and whose line span slices the record's source text. -/
theorem extraction_one_record_per_funcdef (file_path source : String)
    (tree : List AstNode) :
    (extract_functions_from_file file_path (some source) (some tree)).length =
      tree.countP AstNode.isFuncDef ∧
    (∀ name lineno endLineno, AstNode.funcDef name lineno endLineno ∈ tree →
      mkFunctionRecord file_path source name lineno endLineno ∈
        extract_functions_from_file file_path (some source) (some tree)) ∧
    (∀ r ∈ extract_functions_from_file file_path (some source) (some tree),
      ∃ lineno endLineno,
        AstNode.funcDef r.label lineno endLineno ∈ tree ∧
        r = mkFunctionRecord file_path source r.label lineno endLineno ∧
        r.code = sliceLines source lineno endLineno) := by
  refine ⟨length_filterMap_recordOfNode file_path source tree, ?_, ?_⟩
  · intro name lineno endLineno hmem
    exact List.mem_filterMap.mpr ⟨AstNode.funcDef name lineno endLineno, hmem, rfl⟩
  · intro r hr
    obtain ⟨n, hn, hrn⟩ := List.mem_filterMap.mp hr
    cases n with
    | funcDef name lineno endLineno =>
      have hr' : r = mkFunctionRecord file_path source name lineno endLineno :=
        (Option.some.inj hrn).symm
      subst hr'
      exact ⟨lineno, endLineno, hn, rfl, rfl⟩
    | other => simp [recordOfNode] at hrn

/-! ### C8 — unreadable or malformed files are skipped -/

/-- C8: a file whose read fails, or whose contents fail to parse, yields
zero records, and a single such file in the walked tree does not disturb
extraction of the other files. -/
theorem extraction_skips_failures (path src : String)
    (parsed : Option (List AstNode)) (pre post : List FileInput)
    (bad : FileInput) (hbad : bad.readResult = none ∨ bad.parsed = none) :
    extract_functions_from_file path none parsed = [] ∧
    extract_functions_from_file path (some src) none = [] ∧
    extract_functions_from_repo (pre ++ bad :: post) =
      extract_functions_from_repo pre ++ extract_functions_from_repo post := by
  refine ⟨rfl, rfl, ?_⟩
  have hbadfile : extract_functions_from_file bad.path bad.readResult bad.parsed = [] := by
    rcases hbad with h | h
    · unfold extract_functions_from_file
      rw [h]
    · unfold extract_functions_from_file
      cases hr : bad.readResult with
      | none => rfl
      | some s => rw [h]
  have hbadnil : fileContribution bad = [] := by
    unfold fileContribution
    rw [hbadfile]
    cases strEndsWith bad.path ".py" <;> simp
  simp only [extract_functions_from_repo]
  rw [extract_repo_foldl, extract_repo_foldl, extract_repo_foldl]
  simp [List.map_append, List.flatten_append, hbadnil]

/-- A readable, parseable sample file. -/
def sampleFileA : FileInput :=
  ⟨"g.py", some "def g():\n    return 1\n", some [AstNode.funcDef "g" 1 2]⟩

/-- A second readable, parseable sample file. -/
def sampleFileB : FileInput :=
  ⟨"h.py", some "def h():\n    return 2\n", some [AstNode.funcDef "h" 1 2]⟩

/-- An unreadable sample file. -/
def badFile : FileInput := ⟨"bad.py", none, none⟩

/-- Witness for C8: a concrete unreadable file between two good files. -/
theorem extraction_skips_failures_witness :
    (badFile.readResult = none ∨ badFile.parsed = none) ∧
    (extract_functions_from_file "a.py" none (some []) = [] ∧
     extract_functions_from_file "a.py" (some "x = 1\n") none = [] ∧
     extract_functions_from_repo ([sampleFileA] ++ badFile :: [sampleFileB]) =
       extract_functions_from_repo [sampleFileA] ++
         extract_functions_from_repo [sampleFileB]) :=
  ⟨Or.inl rfl,
    extraction_skips_failures "a.py" "x = 1\n" (some []) [sampleFileA]
      [sampleFileB] badFile (Or.inl rfl)⟩

/-! ### C6 — call graph lemmas -/

theorem nodes_add_node_sub {G : PyDiGraph} {m : String} (n : String)
    (h : m ∈ G.nodes) : m ∈ (add_node G n).nodes := by
  unfold add_node
  split
  · exact h
  · exact List.mem_append_left _ h

theorem self_mem_add_node (G : PyDiGraph) (n : String) :
    n ∈ (add_node G n).nodes := by
  unfold add_node
  split
  · assumption
  · exact List.mem_append_right _ (by simp)

theorem edges_add_node (G : PyDiGraph) (n : String) :
    (add_node G n).edges = G.edges := by
  unfold add_node
  split <;> rfl

theorem nodes_nodup_add_node {G : PyDiGraph} (n : String)
    (h : G.nodes.Nodup) : (add_node G n).nodes.Nodup := by
  unfold add_node
  split
  · exact h
  · rename_i hn
    simp [List.nodup_append, h, hn]

theorem nodes_add_edge_sub {G : PyDiGraph} {m : String} (u v : String)
    (h : m ∈ G.nodes) : m ∈ (add_edge G u v).nodes := by
  unfold add_edge
  split
  · exact nodes_add_node_sub _ (nodes_add_node_sub _ h)
  · exact nodes_add_node_sub _ (nodes_add_node_sub _ h)

theorem edges_add_edge_sub {G : PyDiGraph} {e : String × String} (u v : String)
    (h : e ∈ G.edges) : e ∈ (add_edge G u v).edges := by
  unfold add_edge
  split
  · rw [edges_add_node, edges_add_node]
    exact h
  · show e ∈ (add_node (add_node G u) v).edges ++ [(u, v)]
    rw [edges_add_node, edges_add_node]
    exact List.mem_append_left _ h

theorem self_mem_add_edge (G : PyDiGraph) (u v : String) :
    (u, v) ∈ (add_edge G u v).edges := by
  unfold add_edge
  split
  · assumption
  · exact List.mem_append_right _ (by simp)

theorem snd_mem_add_edge (G : PyDiGraph) (u v : String) :
    v ∈ (add_edge G u v).nodes := by
  unfold add_edge
  split
  · exact self_mem_add_node _ v
  · exact self_mem_add_node _ v

theorem nodes_nodup_add_edge {G : PyDiGraph} (u v : String)
    (h : G.nodes.Nodup) : (add_edge G u v).nodes.Nodup := by
  unfold add_edge
  split
  · exact nodes_nodup_add_node _ (nodes_nodup_add_node _ h)
  · exact nodes_nodup_add_node _ (nodes_nodup_add_node _ h)

theorem edges_nodup_add_edge {G : PyDiGraph} (u v : String)
    (h : G.edges.Nodup) : (add_edge G u v).edges.Nodup := by
  unfold add_edge
  split
  · rw [edges_add_node, edges_add_node]
    exact h
  · rename_i hmem
    rw [edges_add_node, edges_add_node] at hmem
    show ((add_node (add_node G u) v).edges ++ [(u, v)]).Nodup
    rw [edges_add_node, edges_add_node]
    simp [List.nodup_append, h, hmem]

theorem foldl_add_edge_nodes_sub (lbl m : String) (cs : List String) :
    ∀ G : PyDiGraph, m ∈ G.nodes →
      m ∈ (cs.foldl (fun G c => add_edge G lbl c) G).nodes := by
  induction cs with
  | nil => intro G h; exact h
  | cons c cs ih => intro G h; exact ih _ (nodes_add_edge_sub _ _ h)

theorem foldl_add_edge_edges_sub (lbl : String) (e : String × String)
    (cs : List String) :
    ∀ G : PyDiGraph, e ∈ G.edges →
      e ∈ (cs.foldl (fun G c => add_edge G lbl c) G).edges := by
  induction cs with
  | nil => intro G h; exact h
  | cons c cs ih => intro G h; exact ih _ (edges_add_edge_sub _ _ h)

theorem foldl_add_edge_complete (lbl : String) (cs : List String) :
    ∀ G : PyDiGraph, ∀ c ∈ cs,
      c ∈ (cs.foldl (fun G c => add_edge G lbl c) G).nodes ∧
      (lbl, c) ∈ (cs.foldl (fun G c => add_edge G lbl c) G).edges := by
  induction cs with
  | nil => intro G c hc; cases hc
  | cons c0 cs ih =>
    intro G c hc
    rcases List.mem_cons.mp hc with h | h
    · subst h
      exact ⟨foldl_add_edge_nodes_sub lbl c cs _ (snd_mem_add_edge G lbl c),
        foldl_add_edge_edges_sub lbl (lbl, c) cs _ (self_mem_add_edge G lbl c)⟩
    · exact ih _ c h

theorem foldl_add_edge_nodup (lbl : String) (cs : List String) :
    ∀ G : PyDiGraph, G.nodes.Nodup → G.edges.Nodup →
      (cs.foldl (fun G c => add_edge G lbl c) G).nodes.Nodup ∧
      (cs.foldl (fun G c => add_edge G lbl c) G).edges.Nodup := by
  induction cs with
  | nil => intro G hn he; exact ⟨hn, he⟩
  | cons c cs ih =>
    intro G hn he
    exact ih _ (nodes_nodup_add_edge _ _ hn) (edges_nodup_add_edge _ _ he)

theorem add_function_edges_nodes_sub {G : PyDiGraph} {m : String}
    (f : EnrichedFunction) (h : m ∈ G.nodes) :
    m ∈ (add_function_edges G f).nodes :=
  foldl_add_edge_nodes_sub _ _ _ _ (nodes_add_node_sub _ h)

theorem add_function_edges_edges_sub {G : PyDiGraph} {e : String × String}
    (f : EnrichedFunction) (h : e ∈ G.edges) :
    e ∈ (add_function_edges G f).edges := by
  apply foldl_add_edge_edges_sub
  rw [edges_add_node]
  exact h

theorem add_function_edges_label (G : PyDiGraph) (f : EnrichedFunction) :
    f.func.label ∈ (add_function_edges G f).nodes :=
  foldl_add_edge_nodes_sub _ _ _ _ (self_mem_add_node G f.func.label)

theorem add_function_edges_calls (G : PyDiGraph) (f : EnrichedFunction) :
    ∀ c ∈ f.metrics.calls,
      c ∈ (add_function_edges G f).nodes ∧
      (f.func.label, c) ∈ (add_function_edges G f).edges :=
  foldl_add_edge_complete _ _ _

theorem add_function_edges_nodup {G : PyDiGraph} (f : EnrichedFunction)
    (hn : G.nodes.Nodup) (he : G.edges.Nodup) :
    (add_function_edges G f).nodes.Nodup ∧
    (add_function_edges G f).edges.Nodup :=
  foldl_add_edge_nodup _ _ _ (nodes_nodup_add_node _ hn) (by rwa [edges_add_node])

theorem build_foldl_spec (functions : List EnrichedFunction) :
    ∀ G : PyDiGraph, G.nodes.Nodup → G.edges.Nodup →
      (functions.foldl add_function_edges G).nodes.Nodup ∧
      (functions.foldl add_function_edges G).edges.Nodup ∧
      (∀ m ∈ G.nodes, m ∈ (functions.foldl add_function_edges G).nodes) ∧
      (∀ e ∈ G.edges, e ∈ (functions.foldl add_function_edges G).edges) ∧
      (∀ f ∈ functions,
        f.func.label ∈ (functions.foldl add_function_edges G).nodes ∧
        ∀ c ∈ f.metrics.calls,
          c ∈ (functions.foldl add_function_edges G).nodes ∧
          (f.func.label, c) ∈ (functions.foldl add_function_edges G).edges) := by
  induction functions with
  | nil =>
    intro G hn he
    exact ⟨hn, he, fun m hm => hm, fun e heq => heq, fun f hf => absurd hf (by simp)⟩
  | cons f0 fs ih =>
    intro G hn he
    obtain ⟨hn', he'⟩ := add_function_edges_nodup f0 hn he
    obtain ⟨ihn, ihe, ihmono_n, ihmono_e, ihfuncs⟩ := ih (add_function_edges G f0) hn' he'
    refine ⟨ihn, ihe, ?_, ?_, ?_⟩
    · intro m hm
      exact ihmono_n m (add_function_edges_nodes_sub f0 hm)
    · intro e heq
      exact ihmono_e e (add_function_edges_edges_sub f0 heq)
    · intro f hf
      rcases List.mem_cons.mp hf with h | h
      · subst h
        refine ⟨ihmono_n _ (add_function_edges_label G f), ?_⟩
        intro c hc
        obtain ⟨h1, h2⟩ := add_function_edges_calls G f c hc
        exact ⟨ihmono_n _ h1, ihmono_e _ h2⟩
      · exact ihfuncs f h

/-- A sample enriched function whose record calls itself twice. -/
def selfCallingSample : EnrichedFunction :=
  ⟨⟨"code:p.py:f:1", "f", "def f():\n    f()\n    f()\n", "p.py", 1⟩,
   ⟨3, 1, 50, ["f", "f"], 0⟩⟩

/-- C6: every record's name is a node of the built graph; every recorded
call target is a node with a directed edge from the caller's name (even
when the callee matches no known function); node and edge lists are
duplicate-free, so repeated caller-to-callee pairs yield a single edge;
and a concrete self-call with a duplicate target is accepted, producing
exactly the one self-loop edge. -/
theorem call_graph_spec (functions : List EnrichedFunction) :
    (∀ f ∈ functions, f.func.label ∈ (build_call_graph functions).nodes) ∧
    (∀ f ∈ functions, ∀ c ∈ f.metrics.calls,
      c ∈ (build_call_graph functions).nodes ∧
      (f.func.label, c) ∈ (build_call_graph functions).edges) ∧
    (build_call_graph functions).nodes.Nodup ∧
    (build_call_graph functions).edges.Nodup ∧
    (build_call_graph [selfCallingSample]).nodes = ["f"] ∧
    (build_call_graph [selfCallingSample]).edges = [("f", "f")] := by
  obtain ⟨hn, he, _, _, hfuncs⟩ :=
    build_foldl_spec functions { nodes := [], edges := [] } (by simp) (by simp)
  exact ⟨fun f hf => (hfuncs f hf).1, fun f hf => (hfuncs f hf).2, hn, he,
    by decide, by decide⟩

/-! ### Sorting lemmas shared by the ranking claims -/

theorem scoreGe_trans : ∀ a b c : ScoredEntry,
    scoreGe a b = true → scoreGe b c = true → scoreGe a c = true := by
  intro a b c h1 h2
  simp only [scoreGe, decide_eq_true_eq] at *
  exact le_trans h2 h1

theorem scoreGe_total : ∀ a b : ScoredEntry,
    (scoreGe a b || scoreGe b a) = true := by
  intro a b
  simp only [scoreGe, Bool.or_eq_true, decide_eq_true_eq]
  exact le_total b.score a.score

theorem enum_map_snd_comp (l : List α) (f : α → β) :
    l.enum.map (fun p => f p.2) = l.map f := by
  have h : (l.enum.map Prod.snd).map f = l.enum.map (fun p => f p.2) := by
    rw [List.map_map]
    rfl
  rw [← h, List.enum_eq_enumFrom, List.enumFrom_map_snd]

theorem enum_map_fst_add_one (l : List α) :
    l.enum.map (fun p => p.1 + 1) = List.range' 1 l.length := by
  have h : (l.enum.map Prod.fst).map (fun n => 1 + n) =
      l.enum.map (fun p => p.1 + 1) := by
    rw [List.map_map]
    congr 1
    funext p
    exact Nat.add_comm 1 p.1
  rw [← h, List.enum_eq_enumFrom, List.enumFrom_map_fst, List.map_add_range']

theorem rank_functions_indexed_map_snd (functions : List EnrichedFunction)
    (centrality : String → ℚ) :
    (rank_functions_indexed functions centrality).map Prod.snd =
      (functions.map (scoreEntry centrality)).mergeSort scoreGe :=
  List.mergeSort_enum

theorem rank_functions_map_toScored (functions : List EnrichedFunction)
    (centrality : String → ℚ) :
    (rank_functions functions centrality).map (fun e => e.toScoredEntry) =
      (functions.map (scoreEntry centrality)).mergeSort scoreGe := by
  simp only [rank_functions]
  rw [List.map_map]
  exact (enum_map_snd_comp _ id).trans (List.map_id _)

theorem rank_functions_indexed_pairwise (functions : List EnrichedFunction)
    (centrality : String → ℚ) :
    (rank_functions_indexed functions centrality).Pairwise
      (fun a b => List.enumLE scoreGe a b = true) :=
  List.sorted_mergeSort (List.enumLE_trans scoreGe_trans)
    (List.enumLE_total scoreGe_total) _

theorem rank_functions_indexed_fst_ne (functions : List EnrichedFunction)
    (centrality : String → ℚ) :
    (rank_functions_indexed functions centrality).Pairwise
      (fun a b => a.1 ≠ b.1) := by
  have hperm : (rank_functions_indexed functions centrality).Perm
      ((functions.map (scoreEntry centrality)).enum) := List.mergeSort_perm _ _
  have hnodup : ((functions.map (scoreEntry centrality)).enum.map Prod.fst).Nodup :=
    List.nodup_enum_map_fst _
  have h : ((rank_functions_indexed functions centrality).map Prod.fst).Nodup :=
    ((hperm.map Prod.fst).nodup_iff).mpr hnodup
  exact List.pairwise_map.mp h

theorem rank_functions_indexed_stable (functions : List EnrichedFunction)
    (centrality : String → ℚ) :
    (rank_functions_indexed functions centrality).Pairwise
      (fun a b => a.2.score = b.2.score → a.1 < b.1) := by
  have h := (rank_functions_indexed_pairwise functions centrality).and
    (rank_functions_indexed_fst_ne functions centrality)
  refine h.imp ?_
  intro a b hab
  obtain ⟨hle, hne⟩ := hab
  intro heq
  have h1 : a.1 ≤ b.1 := by
    simp only [List.enumLE, scoreGe, heq, le_refl, decide_True, if_true,
      decide_eq_true_eq] at hle
    exact hle
  exact lt_of_le_of_ne h1 hne

theorem rank_functions_indexed_source (functions : List EnrichedFunction)
    (centrality : String → ℚ) :
    ∀ p ∈ rank_functions_indexed functions centrality,
      (functions.map (scoreEntry centrality))[p.1]? = some p.2 := by
  intro p hp
  exact List.mem_enum_iff_getElem?.mp (List.mem_mergeSort.mp hp)

/-! ### C3 — descending stable sort with dense ranks 1..N -/

/-- C3: `rank_functions` returns the scored entries sorted by (stored)
score in descending order, the rank values are exactly `1..N` for `N`
input records, and entries with equal scores keep their input order: the
output (via `rank_functions_indexed`, which pairs every emitted entry with
the input position it came from) is pairwise such that equal scores imply
strictly increasing input positions. -/
theorem rank_functions_sorted_and_stable (functions : List EnrichedFunction)
    (centrality : String → ℚ) :
    (rank_functions functions centrality).map (fun e => e.rank) =
      List.range' 1 functions.length ∧
    ((rank_functions functions centrality).map (fun e => e.score)).Pairwise
      (· ≥ ·) ∧
    ((rank_functions functions centrality).map (fun e => e.toScoredEntry)).Perm
      (functions.map (scoreEntry centrality)) ∧
    (rank_functions functions centrality).map (fun e => e.toScoredEntry) =
      (rank_functions_indexed functions centrality).map Prod.snd ∧
    (rank_functions_indexed functions centrality).Pairwise
      (fun a b => a.2.score = b.2.score → a.1 < b.1) ∧
    (∀ p ∈ rank_functions_indexed functions centrality,
      (functions.map (scoreEntry centrality))[p.1]? = some p.2) := by
  refine ⟨?_, ?_, ?_, ?_, rank_functions_indexed_stable functions centrality,
    rank_functions_indexed_source functions centrality⟩
  · simp only [rank_functions]
    rw [List.map_map]
    exact (enum_map_fst_add_one _).trans
      (by rw [List.length_mergeSort, List.length_map])
  · have hsorted : ((functions.map (scoreEntry centrality)).mergeSort
        scoreGe).Pairwise (fun a b => scoreGe a b = true) :=
      List.sorted_mergeSort scoreGe_trans scoreGe_total _
    have hmap : (rank_functions functions centrality).map (fun e => e.score) =
        ((functions.map (scoreEntry centrality)).mergeSort scoreGe).map
          (fun s => s.score) := by
      simp only [rank_functions]
      rw [List.map_map]
      exact enum_map_snd_comp _ (fun s : ScoredEntry => s.score)
    rw [hmap]
    refine List.Pairwise.map _ ?_ hsorted
    intro a b hab
    simp only [scoreGe, decide_eq_true_eq] at hab
    exact hab
  · rw [rank_functions_map_toScored]
    exact List.mergeSort_perm _ _
  · exact (rank_functions_map_toScored functions centrality).trans
      (rank_functions_indexed_map_snd functions centrality).symm

/-! ### C10 — scores are rounded to 4 decimals before sorting -/

/-- C10: every stored score is the composite score rounded to 4 decimal
places, every emitted entry's score is the rounded composite of some input
record, and the sort key is the rounded value: two inputs whose unrounded
composites round to the same 4-decimal value keep their input order
(strictly increasing input positions in the emitted order). -/
theorem rank_functions_round_before_sort (functions : List EnrichedFunction)
    (centrality : String → ℚ) :
    (∀ f : EnrichedFunction, (scoreEntry centrality f).score =
      round4 (compositeScore centrality f)) ∧
    (∀ e ∈ rank_functions functions centrality,
      ∃ f ∈ functions, e.score = round4 (compositeScore centrality f)) ∧
    (rank_functions_indexed functions centrality).Pairwise
      (fun a b => ∀ fa fb, functions[a.1]? = some fa →
        functions[b.1]? = some fb →
        round4 (compositeScore centrality fa) =
          round4 (compositeScore centrality fb) →
        a.1 < b.1) := by
  refine ⟨fun _ => rfl, ?_, ?_⟩
  · intro e he
    have h1 : e.toScoredEntry ∈
        (rank_functions functions centrality).map (fun e => e.toScoredEntry) :=
      List.mem_map_of_mem _ he
    rw [rank_functions_map_toScored] at h1
    obtain ⟨f, hf, hfe⟩ := List.mem_map.mp (List.mem_mergeSort.mp h1)
    exact ⟨f, hf, by rw [← hfe]; rfl⟩
  · have hst := rank_functions_indexed_stable functions centrality
    have hsrc := rank_functions_indexed_source functions centrality
    refine List.Pairwise.imp_of_mem ?_ hst
    intro a b ha hb hab fa fb hfa hfb hr
    apply hab
    have h1 := hsrc a ha
    have h2 := hsrc b hb
    rw [List.getElem?_map, hfa] at h1
    rw [List.getElem?_map, hfb] at h2
    have ha2 : scoreEntry centrality fa = a.2 := by simpa using h1
    have hb2 : scoreEntry centrality fb = b.2 := by simpa using h2
    rw [← ha2, ← hb2]
    exact hr

/-! ### C4 — line count versus lines spanned -/

/-- The spec's reading of `lineCount`: the number of lines spanned by a
source text, i.e. how many lines `splitlines` yields for it. -/
def specLineCount (s : String) : ℕ :=
  (splitlinesKeepends s).length

/-- A file holding only the two-line accessor, ending with a newline. -/
def getIdSourceWithNewline : String := "def get_id(self):\n    return self.id\n"

/-- The same file without a trailing newline. -/
def getIdSourceNoNewline : String := "def get_id(self):\n    return self.id"

/-- Extraction result for the trailing-newline file (`ast` reports the one
`FunctionDef` named `get_id` on lines 1–2). -/
def getIdRecordsWithNewline : List FunctionRecord :=
  extract_functions_from_file "models.py" (some getIdSourceWithNewline)
    (some [AstNode.funcDef "get_id" 1 2])

/-- Extraction result for the file without a trailing newline. -/
def getIdRecordsNoNewline : List FunctionRecord :=
  extract_functions_from_file "models.py" (some getIdSourceNoNewline)
    (some [AstNode.funcDef "get_id" 1 2])

/-- C4 counterexample: for the single-file two-line `get_id` function in a
file ending with a newline, the extracted record's source text spans 2
lines but `metrics.loc` is 3 (`code.count('\n') + 1` counts the kept
trailing newline), so `loc` is not the number of lines spanned, and the
scenario value `loc = 2` fails for this file. -/
theorem loc_lines_spanned_counterexample :
    getIdRecordsWithNewline.length = 1 ∧
    getIdRecordsWithNewline.headI.code = "def get_id(self):\n    return self.id\n" ∧
    specLineCount getIdRecordsWithNewline.headI.code = 2 ∧
    (enrich_function getIdRecordsWithNewline.headI ⟨none, some []⟩).metrics.loc = 3 ∧
    (enrich_function getIdRecordsWithNewline.headI ⟨none, some []⟩).metrics.loc ≠
      specLineCount getIdRecordsWithNewline.headI.code := by
  exact ⟨rfl, rfl, rfl, rfl, by decide⟩

/-- C4 amended: `metrics.loc` equals the number of newline characters in
the function's source text plus one (which is the number of lines spanned
exactly when the text does not end with a newline) and is at least 1; the
two-line `get_id` scenario yields `loc = 2`, an empty call-target list and
the trivial flag precisely for the file without a trailing newline,
whatever the radon metrics returned. -/
theorem loc_newline_count_and_scenario (func : FunctionRecord)
    (ext : ParsedSubanalysis) (radonResult : Option (List ℕ × ℚ)) :
    (enrich_function func ext).metrics.loc = countNewlines func.code + 1 ∧
    1 ≤ (enrich_function func ext).metrics.loc ∧
    getIdRecordsNoNewline.length = 1 ∧
    getIdRecordsNoNewline.headI.code = "def get_id(self):\n    return self.id" ∧
    specLineCount getIdRecordsNoNewline.headI.code = 2 ∧
    (enrich_function getIdRecordsNoNewline.headI ⟨radonResult, some []⟩).metrics.loc = 2 ∧
    (enrich_function getIdRecordsNoNewline.headI ⟨radonResult, some []⟩).metrics.calls = [] ∧
    is_trivial_function
      (enrich_function getIdRecordsNoNewline.headI ⟨radonResult, some []⟩) = true := by
  have hloc : (enrich_function func ext).metrics.loc =
      countNewlines func.code + 1 := rfl
  refine ⟨hloc, ?_, rfl, rfl, rfl, rfl, rfl, rfl⟩
  rw [hloc]
  omega

end RepoFuncAnalyzer
